import Mathlib

/-!
# VelaQL interactive front-end: embedding and verified properties

A shallow embedding of `references/cli/velaql.go` and
`references/cli/velaql_conpleter.go`.

Conventions of the embedding:

* a Go `string` is a Lean `String`, read as its sequence of characters;
* a Go slice is a `List`;
* a Go `map[string]string` that is only ranged over is the list of its entries
  in the order the `range` statement visits them;
* a function that can stop with a runtime panic (index out of range) returns
  an `Option`, `none` being the panic;
* the package-level variable `params` is threaded explicitly: `Complete` and
  `argumentsCompleter` take its value and return its new value;
* the Kubernetes client, the CUE parameter extractor, the VelaQL engine, the
  JSON decoder and the upper-casing of Go `strings.ToUpper` are parameters.
-/

namespace VelaQL

/-! ## Go standard library: `strings` -/

/-- Go `strings.HasPrefix(s, prefix)`. -/
def HasPrefix (s pre : String) : Bool := pre.data.isPrefixOf s.data

/-- Does `sub` occur in the character sequence, starting at some position. -/
def containsAt (sub : List Char) : List Char → Bool
  | [] => sub.isEmpty
  | c :: cs => sub.isPrefixOf (c :: cs) || containsAt sub cs

/-- Go `strings.Contains(s, substr)`. -/
def Contains (s substr : String) : Bool := containsAt substr.data s.data

/-- The scanning loop of `strings.Split` for a non-empty separator: `skip` counts the
characters of a matched separator still to be passed over, `cur` is the piece being
read, most recent character first. Separators are matched left to right and do not
overlap. -/
def splitLoop (sep : List Char) : List Char → Nat → List Char → List (List Char)
  | [], _, cur => [cur.reverse]
  | _ :: cs, skip + 1, cur => splitLoop sep cs skip cur
  | c :: cs, 0, cur =>
    if sep.isPrefixOf (c :: cs) then cur.reverse :: splitLoop sep cs (sep.length - 1) []
    else splitLoop sep cs 0 (c :: cur)

/-- Go `strings.Split(s, sep)`: the substrings of `s` between the occurrences of `sep`;
with an empty `sep` the string is split after each character. -/
def Split (s sep : String) : List String :=
  if sep.data.isEmpty then s.data.map (fun c => String.mk [c])
  else (splitLoop sep.data s.data 0 []).map String.mk

/-- Go `strings.Trim(s, cutset)`: `s` without its leading and trailing characters that
belong to `cutset`. -/
def Trim (s cutset : String) : String :=
  String.mk
    (((s.data.dropWhile (fun c => cutset.data.contains c)).reverse.dropWhile
      (fun c => cutset.data.contains c)).reverse)

/-- A text made of ASCII characters only. -/
def isAscii (s : String) : Bool := s.data.all (fun c => c.toNat < 128)

/-- Upper-casing of the ASCII letters `a` to `z`, every other character unchanged. On a
text of ASCII characters this is what Go `strings.ToUpper` returns; it is used for
concrete ASCII inputs only. Where the code calls `strings.ToUpper`, the embedding takes
the function as a parameter. -/
def asciiToUpper (s : String) : String := String.mk (s.data.map Char.toUpper)

/-! ## Flag exclusion (`excludeOptions`, velaql.go) -/

/-- The flag names of the inner `range` loop of `excludeOptions`, in source order. -/
def optionFlags : List String :=
  ["-f", "--filename", "-n", "--namespace", "-s", "--server", "--kubeconfig", "--cluster",
   "--user", "-o", "--output", "-c", "--container"]

/-- The inner loop of `excludeOptions` over the flag names: every name that is a prefix
of `arg` assigns `skipNextArg` (the `continue` of the source continues this inner loop). -/
def flagScan (arg : String) (skipNextArg : Bool) : Bool :=
  optionFlags.foldl
    (fun skip s => if HasPrefix arg s then (if Contains arg "=" then false else true) else skip)
    skipNextArg

/-- One iteration of the outer loop of `excludeOptions`; the state is
`(filtered, skipNextArg)`. -/
def excludeStep (cmd : String) (st : List String × Bool) (arg : String) : List String × Bool :=
  if st.2 then (st.1, false)
  else if cmd == "logs" && arg == "-f" then st
  else
    let skipNextArg := flagScan arg st.2
    if HasPrefix arg "-" then (st.1, skipNextArg)
    else (st.1 ++ [arg], skipNextArg)

/-- The function `excludeOptions(args)`: the positional tokens and `skipNextArg`. -/
def excludeOptions (args : List String) : List String × Bool :=
  match args with
  | [] => ([], false)
  | cmd :: _ => args.foldl (excludeStep cmd) ([], false)

/-- A token that has one of the flag names as prefix. -/
def isRecognizedFlag (tok : String) : Bool := optionFlags.any (fun s => HasPrefix tok s)

/-- A token that the scan treats as a flag taking the next token as its value, when
the first token of the line is `cmd`: a recognized flag without `=`, other than the
exact token `-f` of a `logs` line. -/
def consumesValue (cmd tok : String) : Bool :=
  !(cmd == "logs" && tok == "-f") && isRecognizedFlag tok && !Contains tok "="

/-! ## Query builder (`MakeVelaQL`, velaql.go) -/

/-- The body of the `range` loop of `MakeVelaQL`: the new value of `paramString` after
the entry `kv`. -/
def paramStep (paramString : String) (kv : String × String) : String :=
  if paramString != "" then paramString ++ ", " ++ kv.1 ++ "=" ++ kv.2
  else kv.1 ++ "=" ++ kv.2

/-- The function `MakeVelaQL(view, params, action)`; `params` lists the entries of the
map in the order the `range` loop visits them. -/
def MakeVelaQL (view : String) (params : List (String × String)) (action : String) : String :=
  let paramString := params.foldl paramStep ""
  view ++ "\x7b" ++ paramString ++ "\x7d." ++ action

/-- The join named by the output format of the query builder: the strings separated
by a comma and a space. -/
def joinCommaSpace : List String → String
  | [] => ""
  | [a] => a
  | a :: b :: rest => a ++ ", " ++ joinCommaSpace (b :: rest)

/-- Reading a brace-enclosed body back: split on `", "`, then each piece on `"="`. -/
def splitBody (body : String) : List (List String) :=
  (Split body ", ").map (fun piece => Split piece "=")

/-- A key or value that the reading back does not cut: it contains neither `=` nor the
separator `", "`. -/
def roundTripSafe (s : String) : Bool := !Contains s "=" && !Contains s ", "

/-! ## Discovery (`getViews`, `getParamsFromView`, velaql.go) -/

/-- The fields of a `corev1.ConfigMap` that the package reads. -/
structure ConfigMap where
  Name : String
  Data : List (String × String)

/-- The fields of a `types.Parameter` that the package reads. -/
structure Parameter where
  Name : String
  Required : Bool

/-- What the package consumes from outside: listing the config maps of a namespace that
carry the view label, getting one config map by namespace and name, and
`cue.GetParameters`; `none` is a returned error. -/
structure Cluster where
  listConfigMaps : String → Option (List ConfigMap)
  getConfigMap : String → String → Option ConfigMap
  getParameters : String → Option (List Parameter)

/-- The function `getViews()`; `none` is the error return. -/
def getViews (k : Cluster) : Option (List String) :=
  match k.listConfigMaps "vela-system" with
  | none => none
  | some items => some ((items.filter (fun t => t.Name != "")).map (fun t => t.Name))

/-- The function `getParamsFromView(viewName, namespace)`; `none` is the error return. -/
def getParamsFromView (k : Cluster) (viewName : String) (ns : String) : Option (List String) :=
  match k.getConfigMap ns viewName with
  | none => none
  | some cm =>
    let parameters : Option (List Parameter) :=
      match cm.Data.lookup "template" with
      | some temp =>
        if temp != "" then k.getParameters (Trim temp "｜") else some []
      | none => some []
    match parameters with
    | none => none
    | some ps => some ((ps.filter (fun val => val.Required)).map (fun val => val.Name))

/-! ## Completion (`Complete`, `argumentsCompleter`, velaql_conpleter.go) -/

/-- A `prompt.Suggest`. -/
structure Suggest where
  Text : String
  Description : String
  deriving DecidableEq, Repr

/-- The package variable `commands`. -/
def commands : List Suggest :=
  [⟨"ql", "Display one or many resources"⟩, ⟨"exit", "Exit this program"⟩]

/-- The go-prompt function `FilterHasPrefix(completions, sub, ignoreCase)`: everything
when `sub` is empty, otherwise the completions whose text has `sub` as prefix, both
upper-cased first when `ignoreCase` is set. The parameter `toUpper` is Go
`strings.ToUpper`. -/
def FilterHasPrefix (toUpper : String → String) (completions : List Suggest) (sub : String)
    (ignoreCase : Bool) : List Suggest :=
  if sub == "" then completions
  else
    let sub := if ignoreCase then toUpper sub else sub
    completions.filter
      (fun s => HasPrefix (if ignoreCase then toUpper s.Text else s.Text) sub)

/-- The method `argumentsCompleter(namespace, args)`. It takes the value of the package
variable `params` and returns the suggestions with the new value of `params`; `none`
is an index-out-of-range panic. The statement `params = params[0:]` of the source leaves
the slice as it is. -/
def argumentsCompleter (toUpper : String → String) (k : Cluster) (ns : String)
    (params : List String) (args : List String) : Option (List Suggest × List String) :=
  if args.length ≤ 1 then
    match args[0]? with
    | none => none
    | some a0 => some (FilterHasPrefix toUpper commands a0 true, params)
  else
    match args[0]? with
    | none => none
    | some first =>
      if first == "ql" then
        match args[1]? with
        | none => none
        | some second =>
          let views := (getViews k).getD []
          let resourceTypes : List Suggest := views.map (fun view => ⟨view, ""⟩)
          if args.length == 2 then
            some (FilterHasPrefix toUpper resourceTypes second true, params)
          else if args.length ≥ 3 then
            match args[2]? with
            | none => none
            | some third =>
              let params :=
                if params.length == 0 then (getParamsFromView k third ns).getD [] else params
              match params[0]? with
              | none => none
              | some cur => some (FilterHasPrefix toUpper [⟨cur, ""⟩] third true, params)
          else some ([], params)
      else some ([], params)

/-- The method `Complete(d)`, as a function of the completer's namespace, the package
variable `params` and `d.TextBeforeCursor()`; `toUpper` is Go `strings.ToUpper`, used by
the go-prompt filter. -/
def Complete (toUpper : String → String) (k : Cluster) (ns : String) (params : List String)
    (textBeforeCursor : String) : Option (List Suggest × List String) :=
  if textBeforeCursor == "" then some ([], params)
  else
    let args := Split textBeforeCursor " "
    if args.any (fun a => a == "|") then some ([], params)
    else
      let r := excludeOptions args
      if r.2 then some ([], params)
      else argumentsCompleter toUpper k ns params r.1

/-! ## Shell executor (`Executor`, velaql.go) -/

/-- What a call of `Executor` does before it ends. -/
inductive ExecResult
  /-- It returns without any effect. -/
  | returned
  /-- It prints the farewell and ends the process with `os.Exit(0)`. -/
  | exited
  /-- It runs `exec.Command(name)` with the given program name and no argument. -/
  | ran (name : String)
  /-- It stops with an index-out-of-range panic. -/
  | panicked
  deriving DecidableEq, Repr

/-- The pairing loop of `Executor`, `for i := 2; i < len(array); i += 2`, on the tokens
from index 2 on: each round reads `array[i]` and `array[i+1]`; `none` when `i+1` is out
of range. -/
def pairLoop : List String → String → Option String
  | [], params => some params
  | [_], _ => none
  | key :: value :: rest, params => pairLoop rest (params ++ (key ++ "=" ++ value))

/-- The function `Executor(s)`. -/
def Executor (s : String) : ExecResult :=
  if s == "" then ExecResult.returned
  else if s == "exit" then ExecResult.exited
  else
    let array := Split s "\\s+"
    if array.length ≤ 2 then ExecResult.returned
    else
      match array[1]? with
      | none => ExecResult.panicked
      | some view =>
        let params := if view != "" then "" ++ view else ""
        let params := params ++ "\x7b"
        match pairLoop (array.drop 2) params with
        | none => ExecResult.panicked
        | some params =>
          let params := params ++ "\x7d"
          if s == "" then ExecResult.returned
          else if s == "exit" then ExecResult.exited
          else ExecResult.ran ("vela " ++ params)

/-! ## Go standard library: `fmt` with no operands -/

/-- Go `fmt`, `parsenum`: reads a decimal number, giving up (and moving to the end)
once the value passes one million. Returns the number, whether a digit was read, and
the unread text. -/
def parsenum : List Char → Nat → Bool → Nat × Bool × List Char
  | [], num, isnum => (num, isnum, [])
  | c :: cs, num, isnum =>
    if c.isDigit then
      if num > 1000000 then (0, false, [])
      else parsenum cs (num * 10 + (c.toNat - 48)) true
    else (num, isnum, c :: cs)

/-- Go `fmt`, `argNumber` when there is no operand: an explicit argument index `[n]`
is passed over and always marks the verb as having a bad index. Returns the unread
text, whether a well-formed index was found, and the good-index mark. -/
def argNumber (r : List Char) (good : Bool) : List Char × Bool × Bool :=
  match r with
  | '[' :: tl =>
    if r.length < 3 then (tl, false, false)
    else
      match tl.indexOf? ']' with
      | none => (tl, false, false)
      | some j =>
        let inner := parsenum (tl.take j) 0 false
        (tl.drop (j + 1), inner.2.1 && inner.2.2.isEmpty, false)
  | _ => (r, false, good)

/-- Go `fmt`, one verb of `doPrintf` when there is no operand, on the text that follows
the `%`: the text written for it and the format text left, `none` when formatting
stops. A precision is read only when the `.` is followed by at least one more character
(the test `i+1 < end` of the source); a `.` that ends the format is the verb. -/
def formatVerb (r : List Char) : List Char × Option (List Char) :=
  let r1 := r.dropWhile (fun c => c == '#' || c == '0' || c == '+' || c == '-' || c == ' ')
  let a1 := argNumber r1 true
  let w : List Char × List Char × Bool × Bool :=
    match a1.1 with
    | '*' :: t => ("%!(BADWIDTH)".data, t, false, a1.2.2)
    | r2 =>
      let n := parsenum r2 0 false
      ([], n.2.2, a1.2.1, if a1.2.1 && n.2.1 then false else a1.2.2)
  let p : List Char × List Char × Bool × Bool :=
    match w.2.1 with
    | '.' :: c :: t1 =>
      let t := c :: t1
      let a2 := argNumber t (if w.2.2.1 then false else w.2.2.2)
      match a2.1 with
      | '*' :: t3 => ("%!(BADPREC)".data, t3, false, a2.2.2)
      | t2 => ([], (parsenum t2 0 false).2.2, a2.2.1, a2.2.2)
    | r3 => ([], r3, w.2.2.1, w.2.2.2)
  let a3 := if p.2.2.1 then (p.2.1, true, p.2.2.2) else argNumber p.2.1 p.2.2.2
  match a3.1 with
  | [] => (w.1 ++ p.1 ++ "%!(NOVERB)".data, none)
  | verb :: rest =>
    if verb == '%' then (w.1 ++ p.1 ++ ['%'], some rest)
    else if !a3.2.2 then (w.1 ++ p.1 ++ "%!".data ++ [verb] ++ "(BADINDEX)".data, some rest)
    else (w.1 ++ p.1 ++ "%!".data ++ [verb] ++ "(MISSING)".data, some rest)

/-- Go `fmt`, the loop of `doPrintf` when there is no operand: plain text is copied and
every `%` starts a verb. The first argument bounds the number of rounds. -/
def doPrintf : Nat → List Char → List Char
  | 0, _ => []
  | _ + 1, [] => []
  | fuel + 1, c :: cs =>
    if c == '%' then
      match formatVerb cs with
      | (out, none) => out
      | (out, some rest) => out ++ doPrintf fuel rest
    else c :: doPrintf fuel cs

/-- The message of the error built by Go `fmt.Errorf(format)` with no operand. -/
def Errorf (format : String) : String :=
  String.mk (doPrintf (format.length + 1) format.data)

/-! ## Service endpoints (`GetServiceEndpoints`, velaql.go) -/

/-- The type `Filter`. -/
structure Filter where
  Component : String
  Cluster : String
  ClusterNamespace : String

/-- The response decoded by `GetServiceEndpoints`; `E` is `querytypes.ServiceEndpoint`. -/
structure Response (E : Type) where
  Endpoints : List E
  Error : String

/-- Go map assignment `m[key] = value` on the list of entries. -/
def mapSet (m : List (String × String)) (key value : String) : List (String × String) :=
  if m.any (fun kv => kv.1 == key) then
    m.map (fun kv => if kv.1 == key then (key, value) else kv)
  else m ++ [(key, value)]

/-- The parameter map that `GetServiceEndpoints` builds before the query. -/
def serviceEndpointParams (appName ns : String) (f : Filter) : List (String × String) :=
  let params := [("appName", appName), ("appNs", ns)]
  let params := if f.Component != "" then mapSet params "name" f.Component else params
  if f.Cluster != "" && f.ClusterNamespace != "" then
    mapSet (mapSet params "cluster" f.Cluster) "clusterNs" f.ClusterNamespace
  else params

/-- The function `GetServiceEndpoints`. Its parameters from outside: `visit`, the order
in which `range` visits the entries of a map; `QueryValue`, the engine run on a query
text; `Decode`, the decoding of its value; `errorf`, the message of `fmt.Errorf` for a
format. The result is the pair of return values: endpoints, or the error message. -/
def GetServiceEndpoints {V E : Type} (visit : List (String × String) → List (String × String))
    (QueryValue : String → Except String V) (Decode : V → Except String (Response E))
    (errorf : String → String) (appName ns : String) (f : Filter) : Except String (List E) :=
  let velaQL := MakeVelaQL "service-endpoints-view" (visit (serviceEndpointParams appName ns f))
    "status"
  match QueryValue velaQL with
  | Except.error err => Except.error err
  | Except.ok queryValue =>
    match Decode queryValue with
    | Except.error err => Except.error err
    | Except.ok response =>
      if response.Error != "" then Except.error (errorf response.Error)
      else Except.ok response.Endpoints

/-! ## The `ql` command (`NewQlCommand`, `NewKubeVelaPrompt`, velaql.go) -/

/-- How the interactive shell ends: the process is ended from inside (`os.Exit`), or
`p.Run()` returns, which it does at the end of input. -/
inductive PromptEnd
  /-- The process ends with the given status. -/
  | exited (code : Nat)
  /-- The call returns to its caller. -/
  | returned
  deriving DecidableEq, Repr

/-- The function `NewKubeVelaPrompt(ctx)`: `completerOk` tells whether `NewCompleter`
succeeded, `run` is how `p.Run()` ends. -/
def NewKubeVelaPrompt (completerOk : Bool) (run : PromptEnd) : PromptEnd :=
  if !completerOk then PromptEnd.exited 1 else run

/-- What a call of the `RunE` function of the `ql` command does before it ends. -/
inductive CommandResult
  /-- The process ends with the given status. -/
  | exited (code : Nat)
  /-- It stops with an index-out-of-range panic. -/
  | panicked
  /-- It returns, with `none` for a nil error or the message of the error. -/
  | returned (err : Option String)
  deriving DecidableEq, Repr

/-- The `RunE` function of `NewQlCommand`, on the argument list `args`. From outside:
`completerOk` and `run` as in `NewKubeVelaPrompt`, the result of `c.GetClient()`, and
`printVelaQLResult` as a function of the client and the query text giving the returned
error. -/
def RunE {C : Type} (args : List String) (completerOk : Bool) (run : PromptEnd)
    (GetClient : Except String C) (printVelaQLResult : C → String → Option String) :
    CommandResult :=
  let argsLength := args.length
  let shell := if argsLength == 0 then NewKubeVelaPrompt completerOk run else PromptEnd.returned
  match shell with
  | PromptEnd.exited code => CommandResult.exited code
  | PromptEnd.returned =>
    match args[0]? with
    | none => CommandResult.panicked
    | some velaQL =>
      match GetClient with
      | Except.error err =>
        CommandResult.returned (some ("failed to get client " ++ velaQL ++ ": " ++ err))
      | Except.ok newClient => CommandResult.returned (printVelaQLResult newClient velaQL)

/-! ## Tokens of the completion text -/

/-- A text that is one positional token of the completion line: it contains no space,
does not begin with `-`, and is not the pipe token. -/
def isToken (p : String) : Bool := !Contains p " " && !HasPrefix p "-" && p != "|"

/-! ## Example stores -/

/-- A store whose only view is `my-view`, with required parameters `cluster` and `name`;
getting any other name fails. -/
def myViewCluster : Cluster where
  listConfigMaps := fun _ => some [⟨"my-view", [("template", "parameter: ...")]⟩]
  getConfigMap := fun _ name =>
    if name == "my-view" then some ⟨"my-view", [("template", "parameter: ...")]⟩ else none
  getParameters := fun _ => some [⟨"cluster", true⟩, ⟨"name", true⟩, ⟨"extra", false⟩]

/-- A store in which every non-empty name is a view without a template, hence without
required parameters; getting the empty name fails. -/
def bareViewCluster : Cluster where
  listConfigMaps := fun _ => some [⟨"my-view", []⟩]
  getConfigMap := fun _ name => if name == "" then none else some ⟨name, []⟩
  getParameters := fun _ => some []

/-! ## Flag exclusion: lemmas -/

theorem HasPrefix_trans {a b c : String} (h1 : HasPrefix a b = true)
    (h2 : HasPrefix b c = true) : HasPrefix a c = true := by
  unfold HasPrefix at *
  rw [List.isPrefixOf_iff_prefix] at *
  exact h2.trans h1

theorem optionFlags_dash : ∀ s ∈ optionFlags, HasPrefix s "-" = true := by decide

theorem recognized_dash {tok : String} (h : isRecognizedFlag tok = true) :
    HasPrefix tok "-" = true := by
  unfold isRecognizedFlag at h
  rw [List.any_eq_true] at h
  obtain ⟨s, hs, hp⟩ := h
  exact HasPrefix_trans hp (optionFlags_dash s hs)

theorem positional_not_recognized {tok : String} (h : HasPrefix tok "-" = false) :
    isRecognizedFlag tok = false := by
  cases hr : isRecognizedFlag tok
  · rfl
  · rw [recognized_dash hr] at h
    exact absurd h (by decide)

theorem foldl_overwrite {α : Type} (p : α → Bool) (v : Bool) (l : List α) (init : Bool) :
    l.foldl (fun skip s => if p s then v else skip) init = if l.any p then v else init := by
  induction l generalizing init with
  | nil => simp
  | cons a l ih =>
    simp only [List.foldl_cons, List.any_cons, ih]
    by_cases h : p a = true <;> simp [h]

theorem flagScan_eq (arg : String) (skip : Bool) :
    flagScan arg skip = if isRecognizedFlag arg then !Contains arg "=" else skip := by
  unfold flagScan isRecognizedFlag
  rw [foldl_overwrite (fun s => HasPrefix arg s)]
  cases Contains arg "=" <;> simp

theorem excludeStep_acc (cmd : String) (st : List String × Bool) (arg : String) :
    excludeStep cmd st arg =
      (st.1 ++ (excludeStep cmd ([], st.2) arg).1, (excludeStep cmd ([], st.2) arg).2) := by
  unfold excludeStep
  split
  · simp
  · split
    · simp
    · simp only []
      split <;> simp

theorem excludeLoop_acc (cmd : String) (l acc : List String) (skip : Bool) :
    l.foldl (excludeStep cmd) (acc, skip) =
      (acc ++ (l.foldl (excludeStep cmd) ([], skip)).1,
        (l.foldl (excludeStep cmd) ([], skip)).2) := by
  induction l generalizing acc skip with
  | nil => simp
  | cons a l ih =>
    simp only [List.foldl_cons]
    rw [excludeStep_acc cmd (acc, skip) a, ih]
    conv => rhs; rw [ih]
    simp [List.append_assoc]

theorem excludeStep_valueFlag (cmd flag : String) (acc : List String)
    (h : consumesValue cmd flag = true) :
    excludeStep cmd (acc, false) flag = (acc, true) := by
  unfold consumesValue at h
  simp only [Bool.and_eq_true, Bool.not_eq_true'] at h
  obtain ⟨⟨hl, hr⟩, hc⟩ := h
  simp [excludeStep, hl, flagScan_eq, hr, hc, recognized_dash hr]

theorem excludeStep_skip (cmd tok : String) (acc : List String) :
    excludeStep cmd (acc, true) tok = (acc, false) := by
  simp [excludeStep]

theorem excludeStep_positional (cmd tok : String) (acc : List String)
    (h : HasPrefix tok "-" = false) :
    excludeStep cmd (acc, false) tok = (acc ++ [tok], false) := by
  have hne : (tok == "-f") = false := by
    cases hb : tok == "-f"
    · rfl
    · have : tok = "-f" := by simpa using hb
      subst this
      exact absurd h (by decide)
  simp [excludeStep, hne, flagScan_eq, positional_not_recognized h, h]

theorem excludeStep_inlineFlag (cmd tok : String) (acc : List String)
    (hr : isRecognizedFlag tok = true) (heq : Contains tok "=" = true) :
    excludeStep cmd (acc, false) tok = (acc, false) := by
  simp only [excludeStep, flagScan_eq, hr, heq, recognized_dash hr]
  simp

theorem excludeOptions_eq_loop (pre : List String) (cmd : String) :
    excludeOptions pre = pre.foldl (excludeStep ((pre ++ [cmd]).headD "")) ([], false) := by
  cases pre with
  | nil => simp [excludeOptions]
  | cons a l => rfl

/-! ## Flag exclusion: claims -/

/-- C2, counterexample. The claim as stated fails on `get -n -o json`: `-o` is a
recognized value-consuming flag without `=`, followed by `json`, yet `json` is in the
remaining list, because `-o` was itself consumed as the value of `-n`. -/
theorem excludeOptions_pair_counterexample :
    ¬ ∀ (args : List String) (i : Nat) (flag value : String),
      args[i]? = some flag → args[i + 1]? = some value →
      consumesValue (args.headD "") flag = true →
      flag ∉ (excludeOptions args).1 ∧ value ∉ (excludeOptions args).1 := by
  intro h
  have h2 := (h ["get", "-n", "-o", "json"] 2 "-o" "json" rfl rfl (by decide)).2
  revert h2
  decide

/-- C2, amended. When the scan of the tokens before a value-consuming flag ends without
expecting a value (the flag is not itself consumed as a value), neither the flag token
nor the token after it is kept: the remaining list is what is kept of the tokens before
the pair followed by what is kept of the tokens after it. -/
theorem excludeOptions_drops_flag_and_value (pre post : List String) (flag value : String)
    (hreach : (excludeOptions pre).2 = false)
    (hflag : consumesValue ((pre ++ [flag]).headD "") flag = true) :
    excludeOptions (pre ++ flag :: value :: post) =
      ((excludeOptions pre).1 ++
          (post.foldl (excludeStep ((pre ++ [flag]).headD "")) ([], false)).1,
        (post.foldl (excludeStep ((pre ++ [flag]).headD "")) ([], false)).2) := by
  have hcmd : ((pre ++ flag :: value :: post) ++ [flag]).headD "" = (pre ++ [flag]).headD "" := by
    cases pre <;> simp
  rw [excludeOptions_eq_loop (pre ++ flag :: value :: post) flag, hcmd,
    excludeOptions_eq_loop pre flag] at *
  rw [List.foldl_append]
  generalize (pre ++ [flag]).headD "" = cmd at *
  rcases hp : List.foldl (excludeStep cmd) ([], false) pre with ⟨kept, sk⟩
  rw [hp] at hreach
  simp only at hreach
  subst hreach
  simp only [List.foldl_cons, excludeStep_valueFlag cmd flag kept hflag, excludeStep_skip]
  exact excludeLoop_acc cmd post kept false

/-- C2, witness: `get -n prod pods` keeps `get` and `pods`. -/
theorem excludeOptions_drops_flag_and_value_witness :
    (excludeOptions ["get"]).2 = false ∧ consumesValue "get" "-n" = true ∧
      excludeOptions ["get", "-n", "prod", "pods"] = (["get", "pods"], false) :=
  ⟨by decide, by decide,
    excludeOptions_drops_flag_and_value ["get"] ["pods"] "-n" "prod" (by decide) (by decide)⟩

/-- C3, counterexample. The claim as stated fails on `get -n -o`: the last token `-o`
is a recognized value-consuming flag without `=`, yet no value is expected on return,
because `-o` was itself consumed as the value of `-n`. -/
theorem excludeOptions_trailing_counterexample :
    ¬ ∀ (args : List String) (last : String),
      args.getLast? = some last → consumesValue (args.headD "") last = true →
      (excludeOptions args).2 = true := by
  intro h
  have h2 := h ["get", "-n", "-o"] "-o" rfl (by decide)
  revert h2
  decide

/-- C3, amended. When the scan of the tokens before the last one ends without expecting
a value and the last token is a value-consuming flag, `excludeOptions` returns
`skipNextArg = true`. -/
theorem excludeOptions_trailing_flag (pre : List String) (flag : String)
    (hreach : (excludeOptions pre).2 = false)
    (hflag : consumesValue ((pre ++ [flag]).headD "") flag = true) :
    (excludeOptions (pre ++ [flag])).2 = true := by
  have hcmd : ((pre ++ [flag]) ++ [flag]).headD "" = (pre ++ [flag]).headD "" := by
    cases pre <;> simp
  rw [excludeOptions_eq_loop (pre ++ [flag]) flag, hcmd, excludeOptions_eq_loop pre flag] at *
  rw [List.foldl_append]
  generalize (pre ++ [flag]).headD "" = cmd at *
  rcases hp : List.foldl (excludeStep cmd) ([], false) pre with ⟨kept, sk⟩
  rw [hp] at hreach
  simp only at hreach
  subst hreach
  simp [excludeStep_valueFlag cmd flag kept hflag]

/-- C3, witness: after `get pods -o` a value is expected. -/
theorem excludeOptions_trailing_flag_witness :
    (excludeOptions ["get", "pods"]).2 = false ∧ consumesValue "get" "-o" = true ∧
      (excludeOptions ["get", "pods", "-o"]).2 = true :=
  ⟨by decide, by decide, excludeOptions_trailing_flag ["get", "pods"] "-o" (by decide) (by decide)⟩

/-- C4. A token with a recognized flag as prefix and an inline `=` is dropped and the
token after it is not skipped: for positional tokens `c` and `x` (not beginning with
`-`), `excludeOptions [c, t, x] = ([c, x], false)`. -/
theorem excludeOptions_inline_value (c t x : String)
    (hc : HasPrefix c "-" = false) (hx : HasPrefix x "-" = false)
    (ht : isRecognizedFlag t = true) (heq : Contains t "=" = true) :
    excludeOptions [c, t, x] = ([c, x], false) := by
  simp [excludeOptions, excludeStep_positional c c [] hc, excludeStep_inlineFlag c t [c] ht heq,
    excludeStep_positional c x [c] hx]

/-- C4, witness: `get -o=json pods` keeps `get` and `pods`. -/
theorem excludeOptions_inline_value_witness :
    HasPrefix "get" "-" = false ∧ HasPrefix "pods" "-" = false ∧
      isRecognizedFlag "-o=json" = true ∧ Contains "-o=json" "=" = true ∧
      excludeOptions ["get", "-o=json", "pods"] = (["get", "pods"], false) :=
  ⟨by decide, by decide, by decide, by decide,
    excludeOptions_inline_value "get" "-o=json" "pods" (by decide) (by decide) (by decide)
      (by decide)⟩

/-! ## Query builder: lemmas -/

theorem piece_ne_empty (k v : String) : k ++ "=" ++ v ≠ "" := by
  intro h
  have := congrArg String.length h
  simp [String.length_append] at this
  exact absurd this.1.2 (by decide)

theorem joinCommaSpace_cons_append (a b : String) (l : List String) :
    joinCommaSpace ((a ++ ", " ++ b) :: l) = a ++ ", " ++ joinCommaSpace (b :: l) := by
  cases l with
  | nil => simp [joinCommaSpace]
  | cons c l => simp [joinCommaSpace, String.append_assoc]

theorem paramStep_nonempty (acc : String) (hacc : acc ≠ "") (kv : String × String) :
    paramStep acc kv = acc ++ ", " ++ (kv.1 ++ "=" ++ kv.2) := by
  simp [paramStep, hacc, String.append_assoc]

theorem paramLoop_nonempty (acc : String) (hacc : acc ≠ "") (ps : List (String × String)) :
    ps.foldl paramStep acc = joinCommaSpace (acc :: ps.map (fun kv => kv.1 ++ "=" ++ kv.2)) := by
  induction ps generalizing acc with
  | nil => simp [joinCommaSpace]
  | cons kv rest ih =>
    have hne : acc ++ ", " ++ (kv.1 ++ "=" ++ kv.2) ≠ "" := by
      intro h
      have := congrArg String.length h
      simp [String.length_append] at this
      exact absurd this.1.2 (by decide)
    rw [List.foldl_cons, paramStep_nonempty acc hacc, ih _ hne, List.map_cons,
      joinCommaSpace_cons_append]
    rfl

theorem MakeVelaQL_join (view action : String) (params : List (String × String)) :
    MakeVelaQL view params action =
      view ++ "\x7b" ++ joinCommaSpace (params.map (fun kv => kv.1 ++ "=" ++ kv.2)) ++ "\x7d." ++
        action := by
  unfold MakeVelaQL
  cases params with
  | nil => simp [joinCommaSpace]
  | cons kv rest =>
    have h0 : paramStep "" kv = kv.1 ++ "=" ++ kv.2 := by simp [paramStep]
    rw [List.foldl_cons, h0, paramLoop_nonempty _ (piece_ne_empty kv.1 kv.2), List.map_cons]

/-! ## Query builder: claims -/

/-- C6. For every view, action and sequence of entries in visiting order, `MakeVelaQL`
returns the view, an opening brace, the strings `key=value` joined by a comma and a
space, a closing brace, a dot and the action; this holds for all keys and values, the
empty string included, and the empty mapping gives the view followed by `{}.` and the
action. -/
theorem MakeVelaQL_format (view action : String) :
    (∀ params : List (String × String),
      MakeVelaQL view params action =
        view ++ "\x7b" ++ joinCommaSpace (params.map (fun kv => kv.1 ++ "=" ++ kv.2)) ++
          "\x7d." ++ action) ∧
    MakeVelaQL view [] action = view ++ "\x7b\x7d." ++ action := by
  refine ⟨fun params => MakeVelaQL_join view action params, ?_⟩
  rw [MakeVelaQL_join]
  simp [joinCommaSpace, String.append_assoc]


/-! ## Splitting: lemmas -/

theorem splitLoop_no_occurrence (sep : List Char) (s cur : List Char)
    (h : containsAt sep s = false) :
    splitLoop sep s 0 cur = [cur.reverse ++ s] := by
  induction s generalizing cur with
  | nil => simp [splitLoop]
  | cons c cs ih =>
    simp only [containsAt, Bool.or_eq_false_iff] at h
    rw [splitLoop]
    simp [h.1, ih (c :: cur) h.2]

theorem commaSpace_run (p r cur : List Char)
    (hp : containsAt [',', ' '] p = false) (hr : r.head? ≠ some ' ') :
    splitLoop [',', ' '] (p ++ r) 0 cur = splitLoop [',', ' '] r 0 (p.reverse ++ cur) := by
  induction p generalizing cur with
  | nil => simp
  | cons c p ih =>
    simp only [containsAt, Bool.or_eq_false_iff] at hp
    have hno : List.isPrefixOf [',', ' '] (c :: (p ++ r)) = false := by
      cases p with
      | nil =>
        cases r with
        | nil => simp [List.isPrefixOf]
        | cons d r =>
          have hd : d ≠ ' ' := by simpa using hr
          simp only [List.nil_append, List.isPrefixOf, Bool.and_true, Bool.and_eq_false_imp,
            beq_iff_eq, beq_eq_false_iff_ne]
          intro _ h
          exact hd h.symm
      | cons d p =>
        have := hp.1
        simpa [List.isPrefixOf] using this
    rw [List.cons_append, splitLoop]
    simp only [hno]
    rw [ih (c :: cur) hp.2]
    simp

theorem commaSpace_match (rest cur : List Char) :
    splitLoop [',', ' '] (',' :: ' ' :: rest) 0 cur =
      cur.reverse :: splitLoop [',', ' '] rest 0 [] := by
  simp [splitLoop, List.isPrefixOf]

theorem equals_run (p r cur : List Char) (hp : containsAt ['='] p = false) :
    splitLoop ['='] (p ++ r) 0 cur = splitLoop ['='] r 0 (p.reverse ++ cur) := by
  induction p generalizing cur with
  | nil => simp
  | cons c p ih =>
    simp only [containsAt, Bool.or_eq_false_iff] at hp
    have hno : List.isPrefixOf ['='] (c :: (p ++ r)) = false := by
      have := hp.1
      simpa [List.isPrefixOf] using this
    rw [List.cons_append, splitLoop]
    simp only [hno]
    rw [ih (c :: cur) hp.2]
    simp

theorem equals_match (rest cur : List Char) :
    splitLoop ['='] ('=' :: rest) 0 cur = cur.reverse :: splitLoop ['='] rest 0 [] := by
  simp [splitLoop, List.isPrefixOf]

theorem Split_piece (k v : String) (hk : Contains k "=" = false) (hv : Contains v "=" = false) :
    Split (k ++ "=" ++ v) "=" = [k, v] := by
  unfold Contains at hk hv
  have hd : (k ++ "=" ++ v).data = k.data ++ ('=' :: v.data) := by
    simp [String.data_append]
  have he : ("=" : String).data = ['='] := rfl
  rw [he] at hk hv
  unfold Split
  rw [hd, he]
  simp only [List.isEmpty_cons, Bool.false_eq_true, if_false]
  rw [equals_run k.data _ [] hk, equals_match]
  have := equals_run v.data [] [] hv
  rw [List.append_nil] at this
  rw [this]
  simp [splitLoop]

theorem piece_no_commaSpace (k v : String) (hk : Contains k ", " = false)
    (hv : Contains v ", " = false) : containsAt [',', ' '] (k ++ "=" ++ v).data = false := by
  unfold Contains at hk hv
  have he : (", " : String).data = [',', ' '] := rfl
  rw [he] at hk hv
  have hd : (k ++ "=" ++ v).data = k.data ++ ('=' :: v.data) := by
    simp [String.data_append]
  rw [hd]
  generalize k.data = a at hk
  induction a with
  | nil => simp [containsAt, List.isPrefixOf, hv]
  | cons x a ih =>
    simp only [containsAt, Bool.or_eq_false_iff] at hk
    simp only [List.cons_append, containsAt, Bool.or_eq_false_iff]
    refine ⟨?_, ih hk.2⟩
    cases a with
    | nil => simp [List.isPrefixOf]
    | cons y a =>
      have := hk.1
      simpa [List.isPrefixOf] using this

theorem Split_join (p : String) (ps : List String)
    (h : ∀ q ∈ p :: ps, containsAt [',', ' '] q.data = false) :
    Split (joinCommaSpace (p :: ps)) ", " = p :: ps := by
  have he : (", " : String).data = [',', ' '] := rfl
  unfold Split
  rw [he]
  simp only [List.isEmpty_cons, Bool.false_eq_true, if_false]
  induction ps generalizing p with
  | nil =>
    simp only [joinCommaSpace]
    rw [splitLoop_no_occurrence _ _ _ (h p (by simp))]
    simp
  | cons q ps ih =>
    have hd : (joinCommaSpace (p :: q :: ps)).data =
        p.data ++ (',' :: ' ' :: (joinCommaSpace (q :: ps)).data) := by
      simp [joinCommaSpace, String.data_append]
    rw [hd, commaSpace_run p.data _ [] (h p (by simp)) (by simp), commaSpace_match]
    simp only [List.map_cons]
    rw [ih q (fun x hx => h x (List.mem_cons_of_mem _ hx))]
    simp


/-! ## Query builder: round trip -/

/-- C5, counterexample. The claim as stated fails for the single entry `hosts` / `a, b`:
the body is `hosts=a, b`, and splitting it on `", "` gives two pieces, `hosts=a` and `b`,
not the original pair. -/
theorem MakeVelaQL_roundtrip_counterexample :
    ¬ ∀ (view action : String) (params : List (String × String)), params ≠ [] →
      ∃ body, MakeVelaQL view params action = view ++ "\x7b" ++ body ++ "\x7d." ++ action ∧
        splitBody body = params.map (fun kv => [kv.1, kv.2]) := by
  intro h
  obtain ⟨body, h1, h2⟩ := h "v" "status" [("hosts", "a, b")] (by simp)
  have hb : body = "hosts=a, b" := by
    have h3 := congrArg String.data h1
    have h4 : (MakeVelaQL "v" [("hosts", "a, b")] "status").data =
        'v' :: '\x7b' :: ("hosts=a, b".data ++ "\x7d.status".data) := by decide
    rw [h4] at h3
    simp only [String.data_append] at h3
    simp at h3
    have h9 : body.data ++ "\x7d.status".data = "hosts=a, b".data ++ "\x7d.status".data :=
      h3.symm
    exact String.ext (List.append_cancel_right h9)
  subst hb
  revert h2
  decide

/-- C5, amended. For every view, action and mapping with at least one entry whose keys
and values contain neither `=` nor the separator `", "`, the result of `MakeVelaQL` has
the shape view, brace, body, brace, dot, action, and splitting the body on `", "` and
each piece on `=` gives back exactly the entries, in visiting order. -/
theorem MakeVelaQL_roundtrip (view action : String) (params : List (String × String))
    (hne : params ≠ [])
    (hsafe : ∀ kv ∈ params, roundTripSafe kv.1 = true ∧ roundTripSafe kv.2 = true) :
    ∃ body, MakeVelaQL view params action = view ++ "\x7b" ++ body ++ "\x7d." ++ action ∧
      splitBody body = params.map (fun kv => [kv.1, kv.2]) := by
  refine ⟨_, MakeVelaQL_join view action params, ?_⟩
  have hs : ∀ kv ∈ params, (Contains kv.1 "=" = false ∧ Contains kv.1 ", " = false) ∧
      (Contains kv.2 "=" = false ∧ Contains kv.2 ", " = false) := by
    intro kv hkv
    have := hsafe kv hkv
    simpa [roundTripSafe] using this
  cases params with
  | nil => exact absurd rfl hne
  | cons kv rest =>
    have hm : (kv.1 ++ "=" ++ kv.2) :: rest.map (fun kv => kv.1 ++ "=" ++ kv.2) =
        (kv :: rest).map (fun kv => kv.1 ++ "=" ++ kv.2) := rfl
    unfold splitBody
    rw [List.map_cons, Split_join]
    · rw [hm, List.map_map]
      apply List.map_congr_left
      intro x hx
      exact Split_piece x.1 x.2 (hs x hx).1.1 (hs x hx).2.1
    · intro q hq
      rw [hm, List.mem_map] at hq
      obtain ⟨x, hx, rfl⟩ := hq
      exact piece_no_commaSpace x.1 x.2 (hs x hx).1.2 (hs x hx).2.2

/-- C5, witness: the entries `appName=web`, `appNs=prod`. -/
theorem MakeVelaQL_roundtrip_witness :
    [("appName", "web"), ("appNs", "prod")] ≠ [] ∧
    (∀ kv ∈ [("appName", "web"), ("appNs", "prod")],
      roundTripSafe kv.1 = true ∧ roundTripSafe kv.2 = true) ∧
    ∃ body, MakeVelaQL "service-endpoints-view" [("appName", "web"), ("appNs", "prod")] "status" =
        "service-endpoints-view" ++ "\x7b" ++ body ++ "\x7d." ++ "status" ∧
      splitBody body = [["appName", "web"], ["appNs", "prod"]] :=
  ⟨by decide, by decide,
    MakeVelaQL_roundtrip "service-endpoints-view" "status" [("appName", "web"), ("appNs", "prod")]
      (by decide) (by decide)⟩

/-! ## Completion: claims -/

/-- C1, the code at the failing input. With `-` before the cursor the flag filter leaves
no positional token and `argumentsCompleter` reads `args[0]` of an empty slice: `Complete`
stops with an index-out-of-range panic, whatever the store, the namespace and the cached
parameters. -/
theorem Complete_panics_without_positional_token (toUpper : String → String) (k : Cluster)
    (ns : String) (params : List String) : Complete toUpper k ns params "-" = none := by
  rfl

/-- C7, the code at the failing input. In a store where `my-view` has the required
parameters `cluster` and `name`, a fresh session completing `ql my-view ` looks up the
parameters of the third token (the empty string) instead of the view; the lookup fails,
the cache stays empty and reading `params[0]` panics. -/
theorem Complete_my_view_panics (toUpper : String → String) :
    getParamsFromView myViewCluster "my-view" "default" = some ["cluster", "name"] ∧
      Complete toUpper myViewCluster "default" [] "ql my-view " = none :=
  ⟨by decide, rfl⟩

/-- C8, the code on the claim's inputs. In Stage 3 (no pipe token, the positional tokens
are `ql`, a second and a third token and possibly more, nothing expected as a flag value)
with an empty parameter cache, whenever the lookup for the third token yields no
parameter name (it failed, or the view requires none), `Complete` stops with an
index-out-of-range panic instead of returning the empty list. -/
theorem Complete_stage3_no_params_panics (toUpper : String → String) (k : Cluster)
    (ns text view third : String)
    (rest : List String) (htext : text ≠ "")
    (hpipe : (Split text " ").any (fun a => a == "|") = false)
    (hargs : excludeOptions (Split text " ") = ("ql" :: view :: third :: rest, false))
    (hlookup : (getParamsFromView k third ns).getD [] = []) :
    Complete toUpper k ns [] text = none := by
  unfold Complete
  simp only [beq_iff_eq, htext, if_false, hpipe, hargs, Bool.false_eq_true]
  unfold argumentsCompleter
  simp [hlookup]

/-- C8, witness: `ql my-view n` in a store whose views require no parameter; the lookup
for the third token succeeds and yields no name. -/
theorem Complete_stage3_no_params_panics_witness :
    "ql my-view n" ≠ "" ∧
    (Split "ql my-view n" " ").any (fun a => a == "|") = false ∧
    excludeOptions (Split "ql my-view n" " ") = ("ql" :: "my-view" :: "n" :: [], false) ∧
    getParamsFromView bareViewCluster "n" "default" = some [] ∧
    (getParamsFromView bareViewCluster "n" "default").getD [] = [] ∧
    Complete asciiToUpper bareViewCluster "default" [] "ql my-view n" = none :=
  ⟨by decide, by decide, by decide, by decide, by decide,
    Complete_stage3_no_params_panics asciiToUpper bareViewCluster "default" "ql my-view n"
      "my-view" "n" [] (by decide) (by decide) (by decide) (by decide)⟩

/-! ## Shell executor: claims -/

/-- The separator given to `strings.Split` in `Executor` is the three characters
backslash, `s`, `+`: a line that does not contain them is never cut, so `Executor`
returns without running anything (or exits on `exit`). -/
theorem Executor_without_literal_separator (s : String) (h : Contains s "\\s+" = false) :
    Executor s = ExecResult.returned ∨ Executor s = ExecResult.exited := by
  unfold Contains at h
  have hsplit : Split s "\\s+" = [s] := by
    unfold Split
    have he : ("\\s+" : String).data.isEmpty = false := by decide
    rw [he]
    simp only [Bool.false_eq_true, if_false]
    rw [splitLoop_no_occurrence _ _ _ h]
    simp
  unfold Executor
  rw [hsplit]
  by_cases h1 : s = ""
  · simp [h1]
  · by_cases h2 : s = "exit"
    · simp [h2]
    · simp [h1, h2]

/-- C9, the code at the failing input. The line `ql my-view name foo` has four
space-separated tokens, yet `Executor` returns without running anything: its
`strings.Split` looks for the literal text backslash, `s`, `+` and finds one piece. -/
theorem Executor_ignores_spaced_line :
    Split "ql my-view name foo" " " = ["ql", "my-view", "name", "foo"] ∧
      Executor "ql my-view name foo" = ExecResult.returned := by
  decide

/-! ## Service endpoints: claims -/

/-- When the query and the decoding succeed, `GetServiceEndpoints` returns the decoded
endpoints if the error field is empty, and otherwise fails with the message that
`fmt.Errorf` builds from the error field used as format. -/
theorem GetServiceEndpoints_soft_error {V E : Type}
    (visit : List (String × String) → List (String × String))
    (QueryValue : String → Except String V) (Decode : V → Except String (Response E))
    (errorf : String → String) (appName ns : String) (f : Filter) (v : V) (r : Response E)
    (hq : ∀ q, QueryValue q = Except.ok v) (hd : Decode v = Except.ok r) :
    GetServiceEndpoints visit QueryValue Decode errorf appName ns f =
      if r.Error != "" then Except.error (errorf r.Error) else Except.ok r.Endpoints := by
  unfold GetServiceEndpoints
  simp only [hq, hd]

/-- A format without `%` is its own message. -/
theorem Errorf_plain (e : String) (h : '%' ∉ e.data) : Errorf e = e := by
  unfold Errorf
  have key : ∀ (l : List Char) (n : Nat), '%' ∉ l → l.length < n → doPrintf n l = l := by
    intro l
    induction l with
    | nil => intro n _ hn; cases n with
      | zero => simp at hn
      | succ n => simp [doPrintf]
    | cons c cs ih =>
      intro n hc hn
      cases n with
      | zero => simp at hn
      | succ n =>
        have hc1 : c ≠ '%' := fun hh => hc (by simp [hh])
        have hc2 : '%' ∉ cs := fun hh => hc (by simp [hh])
        simp only [doPrintf, beq_iff_eq, hc1, if_false]
        rw [ih n hc2 (by simpa using hn)]
  have hk := key e.data (e.length + 1) h (Nat.lt_succ_self _)
  rw [hk]

/-- C10, the code at the failing input. A decoded payload with the error field
`disk 100% full` makes `GetServiceEndpoints` fail with the message
`disk 100%!f(MISSING)ull`: the error field is passed to `fmt.Errorf` as the format. -/
theorem GetServiceEndpoints_reformats_error :
    @GetServiceEndpoints Unit String id (fun _ => Except.ok ())
        (fun _ => Except.ok ⟨["10.0.0.1:80"], "disk 100% full"⟩) Errorf "app" "default"
        ⟨"", "", ""⟩ =
      Except.error "disk 100%!f(MISSING)ull" := by
  rfl


/-! ## The `ql` command: claims -/

/-- C11, the code at the failing input. With no argument, once the interactive shell has
returned, `RunE` goes on to `velaQL := args[0]` and stops with an index-out-of-range
panic on the empty argument list, whatever the client and the printer. -/
theorem RunE_indexes_empty_args {C : Type} (GetClient : Except String C)
    (printVelaQLResult : C → String → Option String) :
    RunE [] true PromptEnd.returned GetClient printVelaQLResult = CommandResult.panicked := by
  rfl

/-! ## Flag exclusion: order and shape of the remaining list -/

theorem excludeStep_from_nil (cmd : String) (skip : Bool) (arg : String) :
    (excludeStep cmd ([], skip) arg).1 = [] ∨
      ((excludeStep cmd ([], skip) arg).1 = [arg] ∧ HasPrefix arg "-" = false) := by
  unfold excludeStep
  split
  · simp
  · split
    · simp
    · simp only []
      split
      · simp
      · rename_i h
        right
        exact ⟨by simp, by simpa using h⟩

theorem excludeLoop_cons (cmd : String) (a : String) (l : List String) (skip : Bool) :
    ((a :: l).foldl (excludeStep cmd) ([], skip)).1 =
      (excludeStep cmd ([], skip) a).1 ++
        (l.foldl (excludeStep cmd) ([], (excludeStep cmd ([], skip) a).2)).1 := by
  rw [List.foldl_cons]
  rcases hs : excludeStep cmd ([], skip) a with ⟨s1, s2⟩
  rw [excludeLoop_acc]

theorem excludeLoop_sublist (cmd : String) (l : List String) (skip : Bool) :
    List.Sublist (l.foldl (excludeStep cmd) ([], skip)).1 l := by
  induction l generalizing skip with
  | nil => simp
  | cons a l ih =>
    rw [excludeLoop_cons]
    rcases excludeStep_from_nil cmd skip a with h | ⟨h, _⟩
    · rw [h]
      exact List.Sublist.cons a (ih _)
    · rw [h]
      exact List.Sublist.cons₂ a (ih _)

theorem excludeLoop_no_dash (cmd : String) (l : List String) (skip : Bool) :
    ∀ t ∈ (l.foldl (excludeStep cmd) ([], skip)).1, HasPrefix t "-" = false := by
  induction l generalizing skip with
  | nil => simp
  | cons a l ih =>
    rw [excludeLoop_cons]
    intro t ht
    rw [List.mem_append] at ht
    rcases ht with ht | ht
    · rcases excludeStep_from_nil cmd skip a with h | ⟨h, hd⟩
      · rw [h] at ht
        simp at ht
      · rw [h] at ht
        have : t = a := by simpa using ht
        rw [this]
        exact hd
    · exact ih _ t ht

/-- C12. For every token list, the remaining list returned by `excludeOptions` is a
subsequence of the input (the kept tokens, unchanged, in their original order), hence
never longer than the input. -/
theorem excludeOptions_sublist (args : List String) :
    List.Sublist (excludeOptions args).1 args ∧ (excludeOptions args).1.length ≤ args.length := by
  have h : List.Sublist (excludeOptions args).1 args := by
    cases args with
    | nil => simp [excludeOptions]
    | cons cmd rest => exact excludeLoop_sublist cmd (cmd :: rest) false
  exact ⟨h, h.length_le⟩

/-- C13. For every token list, no token of the remaining list returned by
`excludeOptions` begins with `-`. -/
theorem excludeOptions_no_dash (args : List String) (t : String)
    (ht : t ∈ (excludeOptions args).1) : HasPrefix t "-" = false := by
  cases args with
  | nil => simp [excludeOptions] at ht
  | cons cmd rest => exact excludeLoop_no_dash cmd (cmd :: rest) false t ht

/-- C13, witness: of `get -x --output=json -n prod pods` the kept token `pods` does not
begin with `-`. -/
theorem excludeOptions_no_dash_witness :
    "pods" ∈ (excludeOptions ["get", "-x", "--output=json", "-n", "prod", "pods"]).1 ∧
      HasPrefix "pods" "-" = false :=
  ⟨by decide,
    excludeOptions_no_dash ["get", "-x", "--output=json", "-n", "prod", "pods"] "pods"
      (by decide)⟩

/-- C14. With first token `logs` the exact token `-f` takes no value: for positional `x`,
`excludeOptions ["logs", "-f", x] = (["logs", x], false)`; with any other positional first
token `c`, `-f` takes `x` as its value: `excludeOptions [c, "-f", x] = ([c], false)`. -/
theorem excludeOptions_logs_follow (c x : String)
    (hc : HasPrefix c "-" = false) (hne : c ≠ "logs") (hx : HasPrefix x "-" = false) :
    excludeOptions ["logs", "-f", x] = (["logs", x], false) ∧
      excludeOptions [c, "-f", x] = ([c], false) := by
  constructor
  · have h1 : excludeStep "logs" (["logs"], false) "-f" = (["logs"], false) := by
      simp [excludeStep]
    simp [excludeOptions, excludeStep_positional "logs" "logs" [] (by decide), h1,
      excludeStep_positional "logs" x ["logs"] hx]
  · have h2 : consumesValue c "-f" = true := by
      have : isRecognizedFlag "-f" = true := by decide
      have h3 : Contains "-f" "=" = false := by decide
      simp [consumesValue, hne, this, h3]
    simp [excludeOptions, excludeStep_positional c c [] hc, excludeStep_valueFlag c "-f" [c] h2,
      excludeStep_skip]

/-- C14, witness: `logs -f web` keeps `web`, `get -f web` does not. -/
theorem excludeOptions_logs_follow_witness :
    HasPrefix "get" "-" = false ∧ "get" ≠ "logs" ∧ HasPrefix "web" "-" = false ∧
      excludeOptions ["logs", "-f", "web"] = (["logs", "web"], false) ∧
      excludeOptions ["get", "-f", "web"] = (["get"], false) :=
  ⟨by decide, by decide, by decide,
    excludeOptions_logs_follow "get" "web" (by decide) (by decide) (by decide)⟩


/-! ## Completion: lemmas -/

theorem Split_ql (p : String) (hp : Contains p " " = false) :
    Split ("ql " ++ p) " " = ["ql", p] := by
  unfold Contains at hp
  have he : (" " : String).data = [' '] := rfl
  rw [he] at hp
  have hd : ("ql " ++ p).data = 'q' :: 'l' :: ' ' :: p.data := by
    simp [String.data_append]
  unfold Split
  rw [hd, he]
  simp only [List.isEmpty_cons, Bool.false_eq_true, if_false]
  have h1 : splitLoop [' '] ('q' :: 'l' :: ' ' :: p.data) 0 [] =
      ['q', 'l'] :: splitLoop [' '] p.data 0 [] := by
    simp [splitLoop, List.isPrefixOf]
  rw [h1, splitLoop_no_occurrence _ _ _ hp]
  simp

theorem ql_append_ne_empty (p : String) : "ql " ++ p ≠ "" := by
  intro h
  have := congrArg String.length h
  simp [String.length_append] at this
  exact absurd this.1 (by decide)

theorem FilterHasPrefix_ignoreCase (toUpper : String → String) (l : List Suggest)
    (sub : String) :
    FilterHasPrefix toUpper l sub true =
      if sub = "" then l else l.filter (fun s => HasPrefix (toUpper s.Text) (toUpper sub)) := by
  unfold FilterHasPrefix
  by_cases h : sub = "" <;> simp [h]

theorem Complete_ql_token (toUpper : String → String) (k : Cluster) (ns : String)
    (params : List String) (p : String) (hp : isToken p = true) :
    Complete toUpper k ns params ("ql " ++ p) =
      some (FilterHasPrefix toUpper
        (((getViews k).getD []).map (fun view => (⟨view, ""⟩ : Suggest))) p true, params) := by
  simp only [isToken, Bool.and_eq_true, Bool.not_eq_true', bne_iff_ne, ne_eq] at hp
  obtain ⟨⟨hsp, hdash⟩, hpipe⟩ := hp
  have hex : excludeOptions ["ql", p] = (["ql", p], false) := by
    simp [excludeOptions, excludeStep_positional "ql" "ql" [] (by decide),
      excludeStep_positional "ql" p ["ql"] hdash]
  unfold Complete
  simp only [beq_iff_eq, ql_append_ne_empty, if_false, Split_ql p hsp]
  have hany : (["ql", p].any fun a => a == "|") = false := by
    simp [hpipe]
  simp only [hany, hex, Bool.false_eq_true, if_false]
  simp [argumentsCompleter]

/-- C15, counterexample. The claim as stated fails on `ql MY` in a store whose only view
is `my-view`, for every upper-casing that does on ASCII text what `strings.ToUpper` does:
the name does not have `MY` as prefix, yet `my-view` is suggested, because the filter is
called with `ignoreCase = true`. -/
theorem Complete_view_names_counterexample :
    ¬ ∃ toUpper : String → String,
      (∀ s, isAscii s = true → toUpper s = asciiToUpper s) ∧
      ∀ (k : Cluster) (ns : String) (params : List String) (p : String), isToken p = true →
        Complete toUpper k ns params ("ql " ++ p) =
          some ((((getViews k).getD []).map (fun view => (⟨view, ""⟩ : Suggest))).filter
            (fun s => HasPrefix s.Text p), params) := by
  rintro ⟨toUpper, hascii, h⟩
  have h2 := h myViewCluster "default" [] "MY" (by decide)
  rw [Complete_ql_token toUpper myViewCluster "default" [] "MY" (by decide),
    FilterHasPrefix_ignoreCase] at h2
  have hv : (getViews myViewCluster).getD [] = ["my-view"] := by decide
  have h3 : toUpper "MY" = "MY" := by rw [hascii "MY" (by decide)]; decide
  have h4 : toUpper "my-view" = "MY-VIEW" := by rw [hascii "my-view" (by decide)]; decide
  rw [hv] at h2
  simp only [List.map_cons, List.map_nil, List.filter_cons, List.filter_nil, h3, h4] at h2
  revert h2
  decide

/-- C15, amended. For every store and whatever `strings.ToUpper` does, Complete on `ql `
returns exactly one suggestion per name of the view listing, in listing order; on `ql `
followed by a non-empty token `p` (no space, not beginning with `-`, not the pipe) it
returns exactly those whose name has `p` as prefix when case is ignored (the upper-cased
name has the upper-cased `p` as prefix); a failed listing gives no suggestion. -/
theorem Complete_view_names (toUpper : String → String) (k : Cluster) (ns : String)
    (params : List String) (p : String) (hp : isToken p = true) (hne : p ≠ "") :
    Complete toUpper k ns params "ql " =
        some (((getViews k).getD []).map (fun view => (⟨view, ""⟩ : Suggest)), params) ∧
      Complete toUpper k ns params ("ql " ++ p) =
        some ((((getViews k).getD []).map (fun view => (⟨view, ""⟩ : Suggest))).filter
          (fun s => HasPrefix (toUpper s.Text) (toUpper p)), params) ∧
      (getViews k = none → Complete toUpper k ns params "ql " = some ([], params)) ∧
      (getViews k = none → Complete toUpper k ns params ("ql " ++ p) = some ([], params)) := by
  have h0 := Complete_ql_token toUpper k ns params "" (by decide)
  have h1 := Complete_ql_token toUpper k ns params p hp
  have he : "ql " ++ "" = "ql " := by decide
  rw [he, FilterHasPrefix_ignoreCase] at h0
  rw [FilterHasPrefix_ignoreCase] at h1
  simp only [if_true, hne, if_false] at h0 h1
  refine ⟨h0, h1, ?_, ?_⟩
  · intro hnone
    rw [h0, hnone]
    rfl
  · intro hnone
    rw [h1, hnone]
    rfl

/-- C15, witness: `ql my` in the store whose only view is `my-view`. -/
theorem Complete_view_names_witness :
    isToken "my" = true ∧ "my" ≠ "" ∧
      Complete asciiToUpper myViewCluster "default" [] "ql " = some ([⟨"my-view", ""⟩], []) ∧
      Complete asciiToUpper myViewCluster "default" [] "ql my" =
        some ([⟨"my-view", ""⟩], []) :=
  ⟨by decide, by decide,
    (Complete_view_names asciiToUpper myViewCluster "default" [] "my" (by decide) (by decide)).1,
    (Complete_view_names asciiToUpper myViewCluster "default" [] "my" (by decide)
      (by decide)).2.1⟩

/-- C16, counterexample. The claim as stated fails on the single token `Q`, for every
upper-casing that does on ASCII text what `strings.ToUpper` does: `ql` is suggested
although `Q` is not a case-sensitive prefix of it. -/
theorem Complete_commands_counterexample :
    ¬ ∃ toUpper : String → String,
      (∀ s, isAscii s = true → toUpper s = asciiToUpper s) ∧
      ∀ (k : Cluster) (ns : String) (params : List String) (text t : String), text ≠ "" →
        (Split text " ").any (fun a => a == "|") = false →
        excludeOptions (Split text " ") = ([t], false) →
        Complete toUpper k ns params text =
          some (commands.filter (fun s => HasPrefix s.Text t), params) := by
  rintro ⟨toUpper, hascii, h⟩
  have h2 := h myViewCluster "default" [] "Q" "Q" (by decide) (by decide) (by decide)
  have h3 : toUpper "Q" = "Q" := by rw [hascii "Q" (by decide)]; decide
  have h4 : toUpper "ql" = "QL" := by rw [hascii "ql" (by decide)]; decide
  have h5 : toUpper "exit" = "EXIT" := by rw [hascii "exit" (by decide)]; decide
  have h6 : Complete toUpper myViewCluster "default" [] "Q" =
      some (FilterHasPrefix toUpper commands "Q" true, []) := rfl
  rw [h6, FilterHasPrefix_ignoreCase] at h2
  simp only [commands, List.filter_cons, List.filter_nil, h3, h4, h5] at h2
  revert h2
  decide

/-- C16, amended. In Stage 1 with exactly one positional token `t` (no pipe token,
nothing expected as a flag value), whatever `strings.ToUpper` does, the suggestions are
the whole command list `ql`, `exit` when `t` is empty, and otherwise exactly the entries
of that list, in that order, whose text has `t` as prefix when case is ignored (the
upper-cased text has the upper-cased `t` as prefix). -/
theorem Complete_commands (toUpper : String → String) (k : Cluster) (ns : String)
    (params : List String) (text t : String)
    (htext : text ≠ "") (hpipe : (Split text " ").any (fun a => a == "|") = false)
    (hargs : excludeOptions (Split text " ") = ([t], false)) :
    Complete toUpper k ns params text =
      some (if t = "" then commands
        else commands.filter (fun s => HasPrefix (toUpper s.Text) (toUpper t)), params) := by
  unfold Complete
  simp only [beq_iff_eq, htext, if_false, hpipe, hargs, Bool.false_eq_true]
  rw [← FilterHasPrefix_ignoreCase]
  simp [argumentsCompleter]

/-- C16, witness: the token `e` gives `exit`. -/
theorem Complete_commands_witness :
    "e" ≠ "" ∧ (Split "e" " ").any (fun a => a == "|") = false ∧
      excludeOptions (Split "e" " ") = (["e"], false) ∧
      Complete asciiToUpper myViewCluster "default" [] "e" =
        some ([⟨"exit", "Exit this program"⟩], []) :=
  ⟨by decide, by decide, by decide,
    Complete_commands asciiToUpper myViewCluster "default" [] "e" "e" (by decide) (by decide)
      (by decide)⟩

theorem serviceEndpointParams_keys (appName ns : String) (f : Filter) :
    (serviceEndpointParams appName ns f).map Prod.fst =
      ["appName", "appNs"] ++ (if f.Component ≠ "" then ["name"] else []) ++
        (if f.Cluster ≠ "" ∧ f.ClusterNamespace ≠ "" then ["cluster", "clusterNs"] else []) := by
  unfold serviceEndpointParams
  by_cases h1 : f.Component = "" <;> by_cases h2 : f.Cluster = "" <;>
    by_cases h3 : f.ClusterNamespace = "" <;> simp [h1, h2, h3, mapSet]

/-- C18. `GetServiceEndpoints` hands to the engine the text that `MakeVelaQL` builds for
the view `service-endpoints-view` and the action `status` from its parameter map (seen
here through an engine that fails with the query text as message); the keys of that map
always include `appName` and `appNs`, include `name` exactly when `Filter.Component` is
not empty, and include `cluster` exactly when both `Filter.Cluster` and
`Filter.ClusterNamespace` are not empty, which is also exactly when they include
`clusterNs`. -/
theorem GetServiceEndpoints_query (visit : List (String × String) → List (String × String))
    (Decode : Unit → Except String (Response Unit)) (errorf : String → String)
    (appName ns : String) (f : Filter) :
    GetServiceEndpoints visit (fun q => Except.error q) Decode errorf appName ns f =
        Except.error
          (MakeVelaQL "service-endpoints-view" (visit (serviceEndpointParams appName ns f))
            "status") ∧
      (serviceEndpointParams appName ns f).lookup "appName" = some appName ∧
      (serviceEndpointParams appName ns f).lookup "appNs" = some ns ∧
      ("name" ∈ (serviceEndpointParams appName ns f).map Prod.fst ↔ f.Component ≠ "") ∧
      ("cluster" ∈ (serviceEndpointParams appName ns f).map Prod.fst ↔
        (f.Cluster ≠ "" ∧ f.ClusterNamespace ≠ "")) ∧
      ("clusterNs" ∈ (serviceEndpointParams appName ns f).map Prod.fst ↔
        (f.Cluster ≠ "" ∧ f.ClusterNamespace ≠ "")) := by
  refine ⟨rfl, ?_, ?_, ?_, ?_, ?_⟩
  · unfold serviceEndpointParams
    by_cases h1 : f.Component = "" <;> by_cases h2 : f.Cluster = "" <;>
      by_cases h3 : f.ClusterNamespace = "" <;> simp [h1, h2, h3, mapSet, List.lookup]
  · unfold serviceEndpointParams
    by_cases h1 : f.Component = "" <;> by_cases h2 : f.Cluster = "" <;>
      by_cases h3 : f.ClusterNamespace = "" <;> simp [h1, h2, h3, mapSet, List.lookup]
  · rw [serviceEndpointParams_keys]
    by_cases h1 : f.Component = "" <;>
      by_cases h2 : f.Cluster ≠ "" ∧ f.ClusterNamespace ≠ "" <;> simp [h1, h2]
  · rw [serviceEndpointParams_keys]
    by_cases h1 : f.Component = "" <;>
      by_cases h2 : f.Cluster ≠ "" ∧ f.ClusterNamespace ≠ "" <;> simp [h1, h2]
  · rw [serviceEndpointParams_keys]
    by_cases h1 : f.Component = "" <;>
      by_cases h2 : f.Cluster ≠ "" ∧ f.ClusterNamespace ≠ "" <;> simp [h1, h2]

/-! ## Shell executor: the pairing loop -/

theorem pairLoop_none_iff (l : List String) (params : String) :
    pairLoop l params = none ↔ l.length % 2 = 1 := by
  induction l, params using pairLoop.induct with
  | case1 params => simp [pairLoop]
  | case2 a params => simp [pairLoop]
  | case3 key value rest params ih =>
    rw [pairLoop, ih]
    simp only [List.length_cons]
    omega

theorem Executor_panics_on_odd (s : String) (hs : s ≠ "") (he : s ≠ "exit")
    (hlen : 2 < (Split s "\\s+").length) (hodd : (Split s "\\s+").length % 2 = 1) :
    Executor s = ExecResult.panicked := by
  have hp : ∀ params, pairLoop ((Split s "\\s+").drop 2) params = none := by
    intro params
    rw [pairLoop_none_iff, List.length_drop]
    omega
  unfold Executor
  simp only [beq_iff_eq, hs, he, if_false]
  have hle : ¬ (Split s "\\s+").length ≤ 2 := by omega
  simp only [hle, if_false]
  split
  · rfl
  · simp only [hp]

/-- C19, the code at the failing input. The line with the pieces `ql`, `my-view` and
`name` around the literal separator passes the fewer-than-3-tokens check with three
tokens; the pairing loop starts at index 2 and reads `array[3]`: `Executor` stops with an
index-out-of-range panic. -/
theorem Executor_odd_tokens_panic :
    Split "ql\\s+my-view\\s+name" "\\s+" = ["ql", "my-view", "name"] ∧
      Executor "ql\\s+my-view\\s+name" = ExecResult.panicked := by
  decide

end VelaQL
